import Mathlib

/-!
Verification of the `key_value_data_store` engine
(`key_value_data_store/functions.py`): a single-process, file-backed
key-value store.  The in-memory ordered map is serialized as a JSON object
into a fixed-capacity memory-mapped region on every mutation
(`json.dumps` with default separators and `ensure_ascii`), zero-padding
the unused tail; on construction the region is read back, trailing zero
bytes are stripped, and the remaining bytes are parsed with `json.loads`.

The embedding below models:
  * JSON values (`Json`, a mutual inductive with its own list types for
    array elements and object members, the latter keeping insertion
    order exactly as a CPython `dict` / `OrderedDict` does);
  * the serializer `printJson`, mirroring `json.dumps` (ASCII escaping,
    `", "` and `": "` separators, lowercase `\uXXXX` escapes, surrogate
    pairs for astral code points);
  * the parser `loads`, mirroring `json.loads` on the fragment the store
    can represent (floats, `NaN`/`Infinity` and lone surrogates are not
    representable in the model and make the parser fail);
  * the store state and the five operations `create` / `get` / `delete` /
    `delete_all` / `flush`, including the failure mode of
    `mmap.write` when the serialized snapshot exceeds the mapped
    region's capacity (`ValueError: data out of range`), which raises
    after the in-memory map was already mutated.

Machine integers do not occur: Python integers are unbounded, timestamps
and ttls are modelled as `Int`, sizes as `Nat`.
-/

set_option linter.unusedVariables false

/-- The ASCII NUL character used to pad the unused tail of the mapped
region (`b'\0'` in `flush`, `rstrip('\0')` in `_read_data`). -/
def nulChar : Char := '\x00'

/-- JSON whitespace accepted between tokens by `json.loads`. -/
def isWsChar (c : Char) : Bool := c = ' ' || c = '\t' || c = '\n' || c = '\r'

/-- Skip leading JSON whitespace, as the `json` scanner does between
tokens. -/
def skipWs : List Char → List Char
  | [] => []
  | c :: rest => if isWsChar c then skipWs rest else c :: rest

/-- Numeric value of a decimal digit character, `none` for
non-digits. -/
def digitVal (c : Char) : Option Nat :=
  if 48 ≤ c.toNat ∧ c.toNat ≤ 57 then some (c.toNat - 48) else none

/-- The decimal digit character for `d < 10`. -/
def decDigitChar (d : Nat) : Char := Char.ofNat (48 + d)

/-- The hexadecimal digit character for `d < 16`; lowercase letters, as
produced by Python's `\uXXXX` escapes. -/
def hexDigitChar (d : Nat) : Char :=
  if d < 10 then Char.ofNat (48 + d) else Char.ofNat (87 + d)

/-- Numeric value of a hexadecimal digit character (both cases accepted,
as by `json.loads`), `none` for non-hex-digits. -/
def hexVal (c : Char) : Option Nat :=
  if 48 ≤ c.toNat ∧ c.toNat ≤ 57 then some (c.toNat - 48)
  else if 97 ≤ c.toNat ∧ c.toNat ≤ 102 then some (c.toNat - 87)
  else if 65 ≤ c.toNat ∧ c.toNat ≤ 70 then some (c.toNat - 55)
  else none

/-- Big-endian decimal digits, with a fuel bound on the recursion
depth (any fuel above the number itself is plenty, since dividing by
ten strictly shrinks it). -/
def natDigitsAux : Nat → Nat → List Nat
  | 0, _ => []
  | fuel + 1, m =>
    if m < 10 then [m] else natDigitsAux fuel (m / 10) ++ [m % 10]

/-- Big-endian decimal digits of a natural number (`[m]` for `m < 10`). -/
def natDigits (m : Nat) : List Nat := natDigitsAux (m + 1) m

/-- Decimal representation of a natural number, as printed by Python's
`repr` / `json.dumps` for a non-negative `int`. -/
def natChars (m : Nat) : List Char := (natDigits m).map decDigitChar

/-- Decimal representation of a Python `int`, with a leading `-` for
negative values. -/
def intChars (n : Int) : List Char :=
  if n < 0 then '-' :: natChars (-n).toNat else natChars n.toNat

/-- Four lowercase hex digits of `n < 0x10000`, the payload of a
`\uXXXX` escape. -/
def toHex4 (n : Nat) : List Char :=
  [hexDigitChar (n / 4096 % 16), hexDigitChar (n / 256 % 16),
   hexDigitChar (n / 16 % 16), hexDigitChar (n % 16)]

/-- How `json.dumps` (with the default `ensure_ascii=True`) renders one
character inside a string literal: `"` and `\` and the five named
control characters get two-character escapes, other printable ASCII is
copied verbatim, everything else becomes `\uXXXX` escapes (a surrogate
pair for code points above `0xFFFF`). -/
def escapeChar (c : Char) : List Char :=
  if c = '"' then ['\\', '"']
  else if c = '\\' then ['\\', '\\']
  else if c = '\x08' then ['\\', 'b']
  else if c = '\x09' then ['\\', 't']
  else if c = '\x0a' then ['\\', 'n']
  else if c = '\x0c' then ['\\', 'f']
  else if c = '\x0d' then ['\\', 'r']
  else if 32 ≤ c.toNat ∧ c.toNat ≤ 126 then [c]
  else if c.toNat < 65536 then '\\' :: 'u' :: toHex4 c.toNat
  else
    ('\\' :: 'u' :: toHex4 (55296 + (c.toNat - 65536) / 1024)) ++
      ('\\' :: 'u' :: toHex4 (56320 + (c.toNat - 65536) % 1024))

/-- Body of a `json.dumps` string literal (without the surrounding
quotes). -/
def printStrBody : List Char → List Char
  | [] => []
  | c :: rest => escapeChar c ++ printStrBody rest

/-- A full `json.dumps` string literal. -/
def printStr (s : List Char) : List Char := '"' :: (printStrBody s ++ ['"'])

mutual

/-- JSON values as stored by the engine.  Python strings are lists of
unicode scalar values; Python ints are unbounded.  Floats, `NaN` and
`Infinity` do not occur in the store's own records and are outside the
model. -/
inductive Json where
  | null : Json
  | bool (b : Bool) : Json
  | num (n : Int) : Json
  | str (s : List Char) : Json
  | arr (xs : JArr) : Json
  | obj (kvs : JMembers) : Json
  deriving DecidableEq

/-- Elements of a JSON array, in order. -/
inductive JArr where
  | nil : JArr
  | cons (hd : Json) (tl : JArr) : JArr
  deriving DecidableEq

/-- Members of a JSON object in insertion order, exactly the iteration
order of a CPython `dict`. -/
inductive JMembers where
  | nil : JMembers
  | cons (k : List Char) (v : Json) (tl : JMembers) : JMembers
  deriving DecidableEq

end

/-- The rendering of Python `None` in `json.dumps` output. -/
def nullChars : List Char := ['n', 'u', 'l', 'l']

/-- The rendering of Python `True` in `json.dumps` output. -/
def trueChars : List Char := ['t', 'r', 'u', 'e']

/-- The rendering of Python `False` in `json.dumps` output. -/
def falseChars : List Char := ['f', 'a', 'l', 's', 'e']

mutual

/-- `json.dumps` with the default separators `", "` and `": "` and
`ensure_ascii=True`, exactly as `flush` calls it. -/
def printJson : Json → List Char
  | .null => nullChars
  | .bool true => trueChars
  | .bool false => falseChars
  | .num n => intChars n
  | .str s => printStr s
  | .arr xs => '[' :: (printElems xs ++ [']'])
  | .obj kvs => '\x7b' :: (printMembers kvs ++ ['\x7d'])

/-- The comma-separated element list of a `json.dumps` array. -/
def printElems : JArr → List Char
  | .nil => []
  | .cons x .nil => printJson x
  | .cons x (.cons y tl) =>
      printJson x ++ (',' :: ' ' :: printElems (.cons y tl))

/-- The comma-separated member list of a `json.dumps` object. -/
def printMembers : JMembers → List Char
  | .nil => []
  | .cons k v .nil => printStr k ++ (':' :: ' ' :: printJson v)
  | .cons k v (.cons k2 v2 tl) =>
      printStr k ++ (':' :: ' ' :: printJson v) ++
        (',' :: ' ' :: printMembers (.cons k2 v2 tl))

end

/-- Leading run of decimal digits of the input together with the
remaining characters. -/
def takeDigits : List Char → List Nat × List Char
  | [] => ([], [])
  | c :: rest =>
    match digitVal c with
    | some d =>
      let p := takeDigits rest
      (d :: p.1, p.2)
    | none => ([], c :: rest)

/-- Value of a big-endian list of decimal digits. -/
def digsVal (ds : List Nat) : Nat := ds.foldl (fun a d => 10 * a + d) 0

/-- Whether the next character would extend the integer literal into a
float literal (fraction or exponent), which the model cannot
represent. -/
def floatFollows : List Char → Bool
  | [] => false
  | c :: _ => c = '.' || c = 'e' || c = 'E'

/-- Parse the `json` integer literal grammar `0 | [1-9][0-9]*` (after
an optional sign handled by the caller).  A leading `0` is never
followed by further digits of the same literal, exactly as in the
`json.loads` number regex; a following `.`/`e`/`E` would make the
literal a float, which the model rejects. -/
def parseNatTok (s : List Char) : Option (Nat × List Char) :=
  match s with
  | [] => none
  | c :: rest =>
    match digitVal c with
    | none => none
    | some d =>
      if d = 0 then
        if floatFollows rest then none else some (0, rest)
      else
        let p := takeDigits rest
        if floatFollows p.2 then none else some (digsVal (d :: p.1), p.2)

/-- Parse a `json` integer literal with an optional leading `-`. -/
def parseNumTok (s : List Char) : Option (Int × List Char) :=
  match s with
  | [] => none
  | c :: rest =>
    if c = '-' then
      match parseNatTok rest with
      | some (m, r) => some (-(m : Int), r)
      | none => none
    else
      match parseNatTok (c :: rest) with
      | some (m, r) => some ((m : Int), r)
      | none => none

/-- Short escape table of `json.loads` (`\"`, `\\`, `\/`, `\b`, `\f`,
`\n`, `\r`, `\t`). -/
def shortEscape (e : Char) : Option Char :=
  if e = '"' then some '"'
  else if e = '\\' then some '\\'
  else if e = '/' then some '/'
  else if e = 'b' then some '\x08'
  else if e = 'f' then some '\x0c'
  else if e = 'n' then some '\x0a'
  else if e = 'r' then some '\x0d'
  else if e = 't' then some '\x09'
  else none

/-- Value of four hex digit characters, `none` if any is not a hex
digit. -/
def hex4Val (a b c d : Char) : Option Nat :=
  match hexVal a, hexVal b, hexVal c, hexVal d with
  | some x, some y, some z, some w => some (x * 4096 + y * 256 + z * 16 + w)
  | _, _, _, _ => none

/-- Scalar value encoded by a high/low surrogate pair. -/
def combineSurrogate (hi lo : Nat) : Nat :=
  65536 + (hi - 55296) * 1024 + (lo - 56320)

/-- Decode one escape sequence (the input starts right after the
backslash): the decoded character and the rest of the input.  `\uXXXX`
escapes are decoded, combining a high/low surrogate pair into one code
point as CPython does.  A lone surrogate would decode to a Python
character that a unicode scalar value cannot represent, so the model
fails there instead. -/
def escInfo : List Char → Option (Char × List Char)
  | [] => none
  | e :: rest2 =>
    if e = 'u' then
      match rest2 with
      | a :: b :: c2 :: d2 :: rest3 =>
        match hex4Val a b c2 d2 with
        | none => none
        | some v =>
          if v < 55296 ∨ 57344 ≤ v then some (Char.ofNat v, rest3)
          else if v < 56320 then
            match rest3 with
            | e3 :: e4 :: a2 :: b2 :: c3 :: d3 :: rest4 =>
              if e3 = '\\' ∧ e4 = 'u' then
                match hex4Val a2 b2 c3 d3 with
                | some w =>
                  if 56320 ≤ w ∧ w < 57344 then
                    some (Char.ofNat (combineSurrogate v w), rest4)
                  else none
                | none => none
              else none
            | _ => none
          else none
      | _ => none
    else (shortEscape e).map (fun ch => (ch, rest2))

/-- The string scanner of `json.loads` (strict mode), applied after the
opening quote: returns the decoded characters and the input after the
closing quote.  Raw control characters are rejected (strict mode).
The fuel only bounds the recursion depth; one unit per decoded
character, so `input length + 1` units always suffice (each decoded
character consumes at least one input character). -/
def parseStrBody : Nat → List Char → Option (List Char × List Char)
  | 0, _ => none
  | _ + 1, [] => none
  | fuel + 1, c :: rest =>
    if c = '"' then some ([], rest)
    else if c = '\\' then
      match escInfo rest with
      | some (ch, rest2) =>
        match parseStrBody fuel rest2 with
        | some (s, r) => some (ch :: s, r)
        | none => none
      | none => none
    else if c.toNat < 32 then none
    else
      match parseStrBody fuel rest with
      | some (s, r) => some (c :: s, r)
      | none => none

/-- The string scanner with its sufficient fuel budget. -/
def parseStr (s : List Char) : Option (List Char × List Char) :=
  parseStrBody (s.length + 1) s

/-- Does the object-member list have a binding for `key`? (`key in d`
on a Python dict). -/
def JMembers.hasKey : JMembers → List Char → Bool
  | .nil, _ => false
  | .cons k _ tl, key => k == key || tl.hasKey key

/-- First binding for `key` (`d.get(key)` on a Python dict; bindings are
unique in any map a CPython dict can produce). -/
def JMembers.lookup : JMembers → List Char → Option Json
  | .nil, _ => none
  | .cons k v tl, key => if k = key then some v else tl.lookup key

/-- Remove the binding for `key`, keeping the order of the others
(`del d[key]` / `d.pop(key)` on a Python dict). -/
def JMembers.erase : JMembers → List Char → JMembers
  | .nil, _ => .nil
  | .cons k v tl, key => if k = key then tl else .cons k v (tl.erase key)

/-- Append a binding at the end of the insertion order (`d[key] = v` on
a Python dict for a key that is not yet present). -/
def JMembers.snoc : JMembers → List Char → Json → JMembers
  | .nil, key, v => .cons key v .nil
  | .cons k w tl, key, v => .cons k w (tl.snoc key v)

/-- Concatenation of member lists. -/
def JMembers.append : JMembers → JMembers → JMembers
  | .nil, m => m
  | .cons k v tl, m => .cons k v (tl.append m)

/-- Replace the value bound to an already-present `key`, keeping its
position (`d[key] = v` on a Python dict for a key that is present). -/
def JMembers.setVal : JMembers → List Char → Json → JMembers
  | .nil, _, _ => .nil
  | .cons k w tl, key, v =>
      if k = key then .cons k v tl else .cons k w (tl.setVal key v)

/-- One `d[key] = v` step of CPython dict construction: replace in
place if present, append otherwise. -/
def dictAdd (acc : JMembers) (k : List Char) (v : Json) : JMembers :=
  if acc.hasKey k then acc.setVal k v else acc.snoc k v

/-- Fold a parsed member list into a CPython dict: later duplicate keys
overwrite the value but keep the first occurrence's position. -/
def dictify' (acc : JMembers) : JMembers → JMembers
  | .nil => acc
  | .cons k v tl => dictify' (dictAdd acc k v) tl

/-- The CPython dict built from a parsed member list. -/
def dictify (kvs : JMembers) : JMembers := dictify' .nil kvs

/-- Consume an expected literal character sequence (as the scanner
does for the `null` / `true` / `false` keywords), returning the
remaining input. -/
def expectChars : List Char → List Char → Option (List Char)
  | [], s => some s
  | _ :: _, [] => none
  | c :: cs, d :: s => if c = d then expectChars cs s else none

/-- Skip whitespace and consume the colon separating an object key
from its value. -/
def expectColon (r : List Char) : Option (List Char) :=
  match skipWs r with
  | [] => none
  | c2 :: r2 => if c2 = ':' then some r2 else none

/-- Parse an object key (a string literal) followed by optional
whitespace and the colon separator; returns the key and the input
right after the colon. -/
def parseKeyColon : List Char → Option (List Char × List Char)
  | [] => none
  | c :: ks =>
    if c = '"' then
      match parseStr ks with
      | none => none
      | some (k, r) =>
        match expectColon r with
        | none => none
        | some r2 => some (k, r2)
    else none

mutual

/-- Recursive value scanner of `json.loads`, with explicit fuel (one
unit per grammar rule application; the fuel needed is bounded by the
input length, see `fsizeJ_le_printJson_length`).  Dispatch follows the
first character exactly as CPython's scanner: string, object, array,
`null`/`true`/`false`, then number.  The input is expected to start at
a non-whitespace character. -/
def parseValue : Nat → List Char → Option (Json × List Char)
  | 0, _ => none
  | _ + 1, [] => none
  | fuel + 1, c :: rest =>
    if c = '"' then
      match parseStr rest with
      | some (s, r) => some (.str s, r)
      | none => none
    else if c = '\x7b' then
      match skipWs rest with
      | [] => none
      | c2 :: r2 =>
        if c2 = '\x7d' then some (.obj .nil, r2)
        else
          match parseMembers fuel (c2 :: r2) with
          | some (kvs, r) => some (.obj (dictify kvs), r)
          | none => none
    else if c = '[' then
      match skipWs rest with
      | [] => none
      | c2 :: r2 =>
        if c2 = ']' then some (.arr .nil, r2)
        else
          match parseElems fuel (c2 :: r2) with
          | some (xs, r) => some (.arr xs, r)
          | none => none
    else if c = 'n' then
      match expectChars ['u', 'l', 'l'] rest with
      | some r => some (.null, r)
      | none => none
    else if c = 't' then
      match expectChars ['r', 'u', 'e'] rest with
      | some r => some (.bool true, r)
      | none => none
    else if c = 'f' then
      match expectChars ['a', 'l', 's', 'e'] rest with
      | some r => some (.bool false, r)
      | none => none
    else
      match parseNumTok (c :: rest) with
      | some (n, r) => some (.num n, r)
      | none => none

/-- Parse a non-empty, comma-separated array element list followed by
`]`; whitespace is skipped around separators.  The input starts at the
first element's first character. -/
def parseElems : Nat → List Char → Option (JArr × List Char)
  | 0, _ => none
  | fuel + 1, s =>
    match parseValue fuel s with
    | none => none
    | some (x, r) =>
      match skipWs r with
      | [] => none
      | c :: r2 =>
        if c = ',' then
          match parseElems fuel (skipWs r2) with
          | some (tl, r3) => some (.cons x tl, r3)
          | none => none
        else if c = ']' then some (.cons x .nil, r2)
        else none

/-- Parse a non-empty, comma-separated object member list followed by
the closing brace; whitespace is skipped around separators.  The input
starts at the first key's opening quote. -/
def parseMembers : Nat → List Char → Option (JMembers × List Char)
  | 0, _ => none
  | fuel + 1, s =>
    match parseKeyColon s with
    | none => none
    | some (k, r2) =>
      match parseValue fuel (skipWs r2) with
      | none => none
      | some (v, r3) =>
        match skipWs r3 with
        | [] => none
        | c3 :: r4 =>
          if c3 = ',' then
            match parseMembers fuel (skipWs r4) with
            | some (tl, r5) => some (.cons k v tl, r5)
            | none => none
          else if c3 = '\x7d' then some (.cons k v .nil, r4)
          else none

end

/-- `json.loads`: skip surrounding whitespace, parse one value, and
require that nothing but whitespace remains (`Extra data` otherwise). -/
def loads (s : List Char) : Option Json :=
  let t := skipWs s
  match parseValue (t.length + 1) t with
  | some (j, r) => if skipWs r = [] then some j else none
  | none => none

/-- Trailing-NUL stripping used by `_read_data`
(`self.__mmap[:].decode('ascii').rstrip('\0')`). -/
def rstrip0 (s : List Char) : List Char :=
  (s.reverse.dropWhile (· == nulChar)).reverse

/-- Modelled from the spec: the configuration constants of the
`config` module, which is not part of the engine source
(`MAX_KEY_LEN`, `MAX_VALUE_SIZE`, `MAX_LOCAL_STORAGE_SIZE` are
"maximum key length, maximum value size, maximum total store size ...
fixed at process configuration time").  `getsizeof` models
`sys.getsizeof`, the "approximate in-memory size" heuristic the
validation rules measure dict values with; it is an arbitrary
platform-dependent function of the value, not the serialized length. -/
structure Config where
  MAX_KEY_LEN : Nat
  MAX_VALUE_SIZE : Nat
  MAX_LOCAL_STORAGE_SIZE : Nat
  getsizeof : Json → Nat

/-- The distinct failure modes of the engine; the source raises
`ValueError` with a distinguishing message for each, the spec names
them `DuplicateKey`, `ConstraintViolation`, `InvalidValue` (value not a
dict), `NotFound`, `Expired`, `CorruptStore`; `dataOutOfRange` is the
`ValueError: data out of range` that `mmap.write` raises inside `flush`
when the serialized snapshot exceeds the mapped region's capacity, and
`envelopeTypeError` stands for the `TypeError` Python would raise in
`get` on a persisted record whose envelope is not a
`[value, int, int-or-null]` list. -/
inductive Err where
  | duplicateKey : Err
  | constraintViolation : Err
  | invalidValue : Err
  | notFound : Err
  | expired : Err
  | corrupt : Err
  | dataOutOfRange : Err
  | envelopeTypeError : Err
  deriving DecidableEq

instance {ε α : Type} [DecidableEq ε] [DecidableEq α] : DecidableEq (Except ε α) :=
  fun a b =>
    match a, b with
    | .ok x, .ok y =>
      if h : x = y then .isTrue (by rw [h]) else .isFalse (by simp [h])
    | .error x, .error y =>
      if h : x = y then .isTrue (by rw [h]) else .isFalse (by simp [h])
    | .ok _, .error _ => .isFalse (by simp)
    | .error _, .ok _ => .isFalse (by simp)

/-- `is_valid(val, val_type="key")`: a string key is valid iff its
length is at most `config.MAX_KEY_LEN` (the non-string case raises and
is excluded by this embedding's types). -/
def is_valid_key (cfg : Config) (val : List Char) : Bool :=
  decide (val.length ≤ cfg.MAX_KEY_LEN)

/-- `is_valid(val, val_type="value")`: a dict value is valid iff
`sys.getsizeof(val) <= config.MAX_VALUE_SIZE`; a non-dict value raises
`ValueError` ("must be of type dict"). -/
def is_valid_value (cfg : Config) (val : Json) : Except Err Bool :=
  match val with
  | .obj _ => .ok (decide (cfg.getsizeof val ≤ cfg.MAX_VALUE_SIZE))
  | _ => .error .invalidValue

/-- The `DataStoreVO` value object: `(value, created_at, ttl)`.
`created_at` is milliseconds since the epoch, `ttl` seconds (`None`
meaning no expiry).  `get` only constructs it from a well-shaped
persisted envelope. -/
structure DataStoreVO where
  value : Json
  created_at : Int
  ttl : Option Int
  deriving DecidableEq

/-- `DataStoreVO.is_expired`: `False` when `ttl` is `None`, otherwise
`(curr_ts - self.created_at) > self.ttl * 1000`.  The source reads the
clock itself (`curr_ts = int(time.time() * 1000)`); the model passes
the current time in as `curr_ts`. -/
def DataStoreVO.is_expired (vo : DataStoreVO) (curr_ts : Int) : Bool :=
  match vo.ttl with
  | none => false
  | some t => decide (curr_ts - vo.created_at > t * 1000)

/-- The mutable state of a `DataStore` object: the in-memory ordered
map `self.__data` and the content of the mapped region `self.__mmap`
(a fixed-capacity character buffer). -/
structure StoreState where
  data : JMembers
  region : List Char
  deriving DecidableEq

/-- `json.dumps(self.__data)`: the serialized snapshot of the map. -/
def dumpsData (d : JMembers) : List Char := printJson (Json.obj d)

/-- The body of `flush` as a function of the map: seek to offset 0,
write the serialized snapshot, pad the rest of the region with NUL
bytes.  `mmap.write` raises `ValueError: data out of range` (without
writing anything) when the snapshot is longer than the region, whose
size is pinned to `config.MAX_LOCAL_STORAGE_SIZE`. -/
def flushData (cfg : Config) (d : JMembers) : Except Err (List Char) :=
  let s := dumpsData d
  if s.length ≤ cfg.MAX_LOCAL_STORAGE_SIZE then
    .ok (s ++ List.replicate (cfg.MAX_LOCAL_STORAGE_SIZE - s.length) nulChar)
  else .error .dataOutOfRange

/-- `DataStore.flush`: rewrite the mapped region from the in-memory
map.  On the out-of-range failure the region keeps its previous
content. -/
def DataStore.flush (cfg : Config) (st : StoreState) :
    Except Err Unit × StoreState :=
  match flushData cfg st.data with
  | .ok r => (.ok (), ⟨st.data, r⟩)
  | .error e => (.error e, st)

/-- The `[value, int(time.time() * 1000), ttl]` envelope `create`
stores. -/
def value_arr (value : Json) (now : Int) (ttl : Option Int) : Json :=
  .arr (.cons value (.cons (.num now)
    (.cons (match ttl with | none => Json.null | some t => Json.num t) .nil)))

/-- `DataStore.create(key, value, ttl)`: fail if the key is already
present; then validate the key (a failed key check short-circuits to
the size `ValueError`, so the value is vetted only for valid keys);
then validate the value; insert the envelope at the end of the
insertion order and flush.  `ttl` is already an integer in the model,
so the `int(ttl)` coercion is the identity and cannot fail.  The pair
returned is (result, state of the object after the call): when the
flush write overflows the region, the error is raised after
`self.__data[key] = value_arr` already happened, so the mutated map
survives while the region keeps its old content. -/
def DataStore.create (cfg : Config) (now : Int) (st : StoreState)
    (key : List Char) (value : Json) (ttl : Option Int) :
    Except Err Unit × StoreState :=
  if st.data.hasKey key then (.error .duplicateKey, st)
  else if is_valid_key cfg key then
    match is_valid_value cfg value with
    | .error e => (.error e, st)
    | .ok true =>
      let d := st.data.snoc key (value_arr value now ttl)
      match flushData cfg d with
      | .ok r => (.ok (), ⟨d, r⟩)
      | .error e => (.error e, ⟨d, st.region⟩)
    | .ok false => (.error .constraintViolation, st)
  else (.error .constraintViolation, st)

/-- `DataStore.get(key)`: fail with the not-in-datastore `ValueError`
if the key is absent; otherwise rebuild the `DataStoreVO` from the
stored `[value, created_at, ttl]` envelope and check expiry.  An
expired key is popped from the map and the store is flushed before the
expiry `ValueError` is raised (so an overflowing flush can turn the
error into `dataOutOfRange` while the key is already gone).  A `null`
ttl short-circuits `is_expired` without reading `created_at`.  The
model surfaces the `TypeError` Python would raise on an envelope whose
`created_at`/`ttl` are not numbers as `envelopeTypeError`; extra
envelope elements are swallowed by `DataStoreVO`'s `*args` and
ignored. -/
def DataStore.get (cfg : Config) (now : Int) (st : StoreState)
    (key : List Char) : Except Err Json × StoreState :=
  match st.data.lookup key with
  | none => (.error .notFound, st)
  | some (Json.arr (.cons v (.cons created (.cons tj _)))) =>
    match tj, created with
    | Json.null, _ => (.ok v, st)
    | Json.num t, Json.num c =>
      if (DataStoreVO.mk v c (some t)).is_expired now then
        let d := st.data.erase key
        match flushData cfg d with
        | .ok r => (.error .expired, ⟨d, r⟩)
        | .error e => (.error e, ⟨d, st.region⟩)
      else (.ok v, st)
    | _, _ => (.error .envelopeTypeError, st)
  | some _ => (.error .envelopeTypeError, st)

/-- `DataStore.delete(key)`: silently return if the key is absent;
otherwise remove it and flush. -/
def DataStore.delete (cfg : Config) (st : StoreState) (key : List Char) :
    Except Err Unit × StoreState :=
  if st.data.hasKey key then
    let d := st.data.erase key
    match flushData cfg d with
    | .ok r => (.ok (), ⟨d, r⟩)
    | .error e => (.error e, ⟨d, st.region⟩)
  else (.ok (), st)

/-- `DataStore.delete_all()`: replace the map with an empty dict and
flush. -/
def DataStore.delete_all (cfg : Config) (st : StoreState) :
    Except Err Unit × StoreState :=
  match flushData cfg JMembers.nil with
  | .ok r => (.ok (), ⟨.nil, r⟩)
  | .error e => (.error e, ⟨.nil, st.region⟩)

/-- `DataStore._read_data`: read the whole region, strip trailing NUL
bytes, parse as JSON (`CorruptStore` on parse failure), and take the
resulting dict as the map.  A non-object top level cannot be a map and
is reported as corrupt in the model. -/
def DataStore.read_data (raw : List Char) : Except Err JMembers :=
  match loads (rstrip0 raw) with
  | some (Json.obj kvs) => .ok kvs
  | some _ => .error .corrupt
  | none => .error .corrupt

/-- The persistence invariant: the mapped region holds exactly the
serialized snapshot of the in-memory map, zero-padded to the
configured capacity (in particular the snapshot fits). -/
def inSync (cfg : Config) (st : StoreState) : Prop :=
  flushData cfg st.data = .ok st.region

instance (cfg : Config) (st : StoreState) : Decidable (inSync cfg st) :=
  inferInstanceAs (Decidable (flushData cfg st.data = .ok st.region))

/-- Uniqueness of keys in a member list, the invariant every CPython
dict enjoys. -/
def keysNodupM : JMembers → Bool
  | .nil => true
  | .cons k _ tl => !tl.hasKey k && keysNodupM tl

mutual

/-- Well-formedness of a JSON value as an image of a Python object:
every object that occurs in it has pairwise-distinct keys (a Python
dict cannot hold duplicate keys). -/
def wfJson : Json → Bool
  | .null => true
  | .bool _ => true
  | .num _ => true
  | .str _ => true
  | .arr xs => wfArr xs
  | .obj kvs => keysNodupM kvs && wfMembers kvs

/-- All elements well-formed. -/
def wfArr : JArr → Bool
  | .nil => true
  | .cons x tl => wfJson x && wfArr tl

/-- All member values well-formed. -/
def wfMembers : JMembers → Bool
  | .nil => true
  | .cons _ v tl => wfJson v && wfMembers tl

end

mutual

/-- Fuel bound for `parseValue`: enough grammar-rule applications to
parse the printed form of the value (see
`parse_print_roundtrip`). -/
def fsizeJ : Json → Nat
  | .null => 1
  | .bool _ => 1
  | .num _ => 1
  | .str _ => 1
  | .arr xs => 1 + fsizeA xs
  | .obj kvs => 1 + fsizeM kvs

/-- Fuel bound for `parseElems`. -/
def fsizeA : JArr → Nat
  | .nil => 0
  | .cons x tl => 1 + fsizeJ x + fsizeA tl

/-- Fuel bound for `parseMembers`. -/
def fsizeM : JMembers → Nat
  | .nil => 0
  | .cons _ v tl => 1 + fsizeJ v + fsizeM tl

end

/-- Decidable form of the context constraint after a JSON integer
literal: the next character (if any) is not a digit and not a
fraction/exponent starter, so the literal ends exactly where the
printer ended it.  Every separator and closer of the JSON grammar
satisfies it. -/
def numBoundary : List Char → Bool
  | [] => true
  | c :: _ => (digitVal c).isNone && !(c = '.' || c = 'e' || c = 'E')

theorem charToNat_ofNat {n : Nat} (h : n.isValidChar) :
    (Char.ofNat n).toNat = n := by
  simp [Char.ofNat, h, Char.ofNatAux, Char.toNat, UInt32.toNat]

theorem char_toNat_valid (c : Char) : c.toNat.isValidChar := by
  have := c.valid
  unfold UInt32.isValidChar at this
  exact this

theorem char_ne_of_toNat {a b : Char} (h : a.toNat ≠ b.toNat) : a ≠ b :=
  fun e => h (by rw [e])

theorem decDigitChar_toNat {d : Nat} (h : d < 10) :
    (decDigitChar d).toNat = 48 + d := by
  have : (48 + d).isValidChar := Or.inl (by omega)
  simpa [decDigitChar] using charToNat_ofNat this

theorem digitVal_decDigitChar {d : Nat} (h : d < 10) :
    digitVal (decDigitChar d) = some d := by
  rw [digitVal, decDigitChar_toNat h, if_pos (by omega)]
  congr 1
  omega

theorem natDigitsAux_lt :
    ∀ (fuel m : Nat), m < fuel → ∀ d ∈ natDigitsAux fuel m, d < 10
  | 0, m, h => by omega
  | fuel + 1, m, h => by
    rw [natDigitsAux]
    by_cases h10 : m < 10
    · rw [if_pos h10]
      intro d hd
      simp at hd
      omega
    · rw [if_neg h10]
      intro d hd
      rcases List.mem_append.1 hd with h1 | h1
      · exact natDigitsAux_lt fuel (m / 10) (by omega) d h1
      · simp at h1
        omega

theorem natDigits_lt (m : Nat) : ∀ d ∈ natDigits m, d < 10 :=
  natDigitsAux_lt (m + 1) m (by omega)

theorem digsVal_append_one (xs : List Nat) (d : Nat) :
    digsVal (xs ++ [d]) = 10 * digsVal xs + d := by
  simp [digsVal, List.foldl_append]

theorem digsVal_natDigitsAux :
    ∀ (fuel m : Nat), m < fuel → digsVal (natDigitsAux fuel m) = m
  | 0, m, h => by omega
  | fuel + 1, m, h => by
    rw [natDigitsAux]
    by_cases h10 : m < 10
    · rw [if_pos h10]
      simp [digsVal]
    · rw [if_neg h10, digsVal_append_one,
        digsVal_natDigitsAux fuel (m / 10) (by omega)]
      omega

theorem digsVal_natDigits (m : Nat) : digsVal (natDigits m) = m :=
  digsVal_natDigitsAux (m + 1) m (by omega)

theorem natDigitsAux_shape :
    ∀ (fuel m : Nat), m < fuel →
      ∃ d ds, natDigitsAux fuel m = d :: ds ∧ d < 10 ∧ (m ≠ 0 → d ≠ 0)
  | 0, m, h => by omega
  | fuel + 1, m, h => by
    rw [natDigitsAux]
    by_cases h10 : m < 10
    · rw [if_pos h10]
      exact ⟨m, [], rfl, h10, fun h0 => h0⟩
    · rw [if_neg h10]
      obtain ⟨d, ds, h1, h2, h3⟩ := natDigitsAux_shape fuel (m / 10) (by omega)
      exact ⟨d, ds ++ [m % 10], by rw [h1]; simp, h2, fun _ => h3 (by omega)⟩

theorem natDigits_shape (m : Nat) :
    ∃ d ds, natDigits m = d :: ds ∧ d < 10 ∧ (m ≠ 0 → d ≠ 0) :=
  natDigitsAux_shape (m + 1) m (by omega)

theorem takeDigits_map (ds : List Nat) (rest : List Char)
    (h : ∀ d ∈ ds, d < 10)
    (hb : rest = [] ∨ ∃ c t, rest = c :: t ∧ digitVal c = none) :
    takeDigits (ds.map decDigitChar ++ rest) = (ds, rest) := by
  induction ds with
  | nil =>
    rcases hb with h1 | ⟨c, t, h1, h2⟩
    · simp [h1, takeDigits]
    · simp [h1, takeDigits, h2]
  | cons d ds ih =>
    have hd : d < 10 := h d (by simp)
    simp only [List.map_cons, List.cons_append, takeDigits,
      digitVal_decDigitChar hd, List.append_eq]
    rw [ih (fun x hx => h x (by simp [hx]))]

theorem numBoundary_digit_none {c : Char} {t : List Char}
    (h : numBoundary (c :: t) = true) : digitVal c = none := by
  simp [numBoundary, Option.isNone_iff_eq_none] at h
  exact h.1

theorem numBoundary_floatFollows {rest : List Char}
    (h : numBoundary rest = true) : floatFollows rest = false := by
  match rest with
  | [] => rfl
  | c :: t =>
    simp [numBoundary] at h
    simp [floatFollows, h.2.1, h.2.2]

theorem numBoundary_shape (rest : List Char) (h : numBoundary rest = true) :
    rest = [] ∨ ∃ c t, rest = c :: t ∧ digitVal c = none := by
  match rest with
  | [] => exact Or.inl rfl
  | c :: t => exact Or.inr ⟨c, t, rfl, numBoundary_digit_none h⟩

theorem parseNatTok_natChars (m : Nat) (rest : List Char)
    (h : numBoundary rest = true) :
    parseNatTok (natChars m ++ rest) = some (m, rest) := by
  obtain ⟨d, ds, hshape, hd, hd0⟩ := natDigits_shape m
  have hchars : natChars m = decDigitChar d :: ds.map decDigitChar := by
    rw [natChars, hshape]
    rfl
  rw [hchars]
  simp only [List.cons_append, parseNatTok, digitVal_decDigitChar hd]
  by_cases hdz : d = 0
  · subst hdz
    have hm : m = 0 := by
      by_contra hm
      exact hd0 hm rfl
    have h0 : natDigits 0 = [0] := by
      rw [natDigits]
      rfl
    subst hm
    rw [h0] at hshape
    have hds : ds = [] := by
      simpa using hshape.symm
    subst hds
    simp [numBoundary_floatFollows h]
  · rw [if_neg hdz]
    have hdigs : ∀ x ∈ ds, x < 10 := by
      intro x hx
      exact natDigits_lt m x (by rw [hshape]; simp [hx])
    rw [takeDigits_map _ _ hdigs (numBoundary_shape rest h)]
    simp only [numBoundary_floatFollows h, Bool.false_eq_true, if_false]
    have : digsVal (d :: ds) = m := by
      rw [← hshape, digsVal_natDigits]
    rw [this]

theorem natChars_cons (m : Nat) :
    ∃ d t, d < 10 ∧ natChars m = decDigitChar d :: t := by
  obtain ⟨d, ds, hshape, hd, _⟩ := natDigits_shape m
  exact ⟨d, ds.map decDigitChar, hd, by rw [natChars, hshape]; rfl⟩

theorem parseNumTok_intChars (n : Int) (rest : List Char)
    (h : numBoundary rest = true) :
    parseNumTok (intChars n ++ rest) = some (n, rest) := by
  rw [intChars]
  by_cases hn : n < 0
  · rw [if_pos hn]
    have h1 := parseNatTok_natChars (-n).toNat rest h
    simp [parseNumTok, h1]
    omega
  · rw [if_neg hn]
    obtain ⟨d, t, hd, hshape⟩ := natChars_cons n.toNat
    rw [hshape]
    have hne : decDigitChar d ≠ '-' := by
      intro e
      have h2 := congrArg Char.toNat e
      rw [decDigitChar_toNat hd] at h2
      have h3 : ('-').toNat = 45 := by decide
      rw [h3] at h2
      omega
    have h1 := parseNatTok_natChars n.toNat rest h
    rw [hshape] at h1
    simp only [List.cons_append] at h1 ⊢
    rw [parseNumTok, if_neg hne, h1]
    have h2 : ((n.toNat : Int)) = n := by omega
    simp [h2]

theorem hexVal_hexDigitChar {d : Nat} (h : d < 16) :
    hexVal (hexDigitChar d) = some d := by
  interval_cases d <;> decide

theorem hex4Val_toHex4 {n : Nat} (h : n < 65536) :
    hex4Val (hexDigitChar (n / 4096 % 16)) (hexDigitChar (n / 256 % 16))
      (hexDigitChar (n / 16 % 16)) (hexDigitChar (n % 16)) = some n := by
  rw [hex4Val, hexVal_hexDigitChar (by omega), hexVal_hexDigitChar (by omega),
    hexVal_hexDigitChar (by omega), hexVal_hexDigitChar (by omega)]
  simp only [Option.some.injEq]
  omega

theorem char_valid_ranges (c : Char) :
    c.toNat < 55296 ∨ (57343 < c.toNat ∧ c.toNat < 1114112) :=
  char_toNat_valid c



theorem escInfo_short (e : Char) (h : e ≠ 'u') (rest2 : List Char) :
    escInfo (e :: rest2) = (shortEscape e).map (fun ch => (ch, rest2)) := by
  rw [escInfo.eq_def]
  simp only []
  rw [if_neg h]

theorem escInfo_u_bmp (v : Nat) (h : v < 55296 ∨ (57344 ≤ v ∧ v < 65536))
    (X : List Char) :
    escInfo ('u' :: (toHex4 v ++ X)) = some (Char.ofNat v, X) := by
  simp only [toHex4, List.cons_append, List.nil_append]
  rw [escInfo, if_pos rfl, hex4Val_toHex4 (by omega)]
  simp only []
  rw [if_pos (by omega)]

theorem escInfo_u_pair (v : Nat) (h1 : 65536 ≤ v) (h2 : v < 1114112)
    (X : List Char) :
    escInfo ('u' :: (toHex4 (55296 + (v - 65536) / 1024) ++
      ('\\' :: 'u' :: (toHex4 (56320 + (v - 65536) % 1024) ++ X)))) =
      some (Char.ofNat v, X) := by
  simp only [toHex4, List.cons_append, List.nil_append]
  rw [escInfo, if_pos rfl, hex4Val_toHex4 (by omega)]
  simp only []
  rw [if_neg (by omega), if_pos (by omega)]
  rw [if_pos (⟨trivial, trivial⟩ : True ∧ True)]
  rw [hex4Val_toHex4 (by omega)]
  simp only []
  rw [if_pos (by omega)]
  have hcomb : combineSurrogate (55296 + (v - 65536) / 1024)
      (56320 + (v - 65536) % 1024) = v := by
    rw [combineSurrogate]
    omega
  rw [hcomb]

theorem parseStrBody_print (s : List Char) :
    ∀ (fuel : Nat) (rest : List Char), s.length < fuel →
    parseStrBody fuel (printStrBody s ++ '"' :: rest) = some (s, rest) := by
  induction s with
  | nil =>
    intro fuel rest hf
    cases fuel with
    | zero => exact absurd hf (by simp)
    | succ f =>
      rw [printStrBody, List.nil_append, parseStrBody, if_pos rfl]
  | cons c s ih =>
    intro fuel rest hf
    cases fuel with
    | zero => exact absurd hf (by simp)
    | succ f =>
      have hf2 : s.length < f := by
        simp only [List.length_cons] at hf
        omega
      rw [printStrBody, List.append_assoc]
      by_cases h1 : c = '"'
      · subst h1
        rw [escapeChar, if_pos rfl, List.cons_append, List.cons_append,
          List.nil_append, parseStrBody, if_neg (by decide), if_pos rfl,
          escInfo_short _ (by decide) _, shortEscape, if_pos rfl]
        simp only [Option.map_some']
        rw [ih f rest hf2]
      by_cases h2 : c = '\\'
      · subst h2
        rw [(by decide : escapeChar '\\' = ['\\', '\\']), List.cons_append,
          List.cons_append, List.nil_append, parseStrBody, if_neg (by decide),
          if_pos rfl, escInfo_short _ (by decide) _,
          (by decide : shortEscape '\\' = some '\\')]
        simp only [Option.map_some']
        rw [ih f rest hf2]
      by_cases h3 : c = '\x08'
      · subst h3
        rw [(by decide : escapeChar '\x08' = ['\\', 'b']), List.cons_append,
          List.cons_append, List.nil_append, parseStrBody, if_neg (by decide),
          if_pos rfl, escInfo_short _ (by decide) _,
          (by decide : shortEscape 'b' = some '\x08')]
        simp only [Option.map_some']
        rw [ih f rest hf2]
      by_cases h4 : c = '\x09'
      · subst h4
        rw [(by decide : escapeChar '\x09' = ['\\', 't']), List.cons_append,
          List.cons_append, List.nil_append, parseStrBody, if_neg (by decide),
          if_pos rfl, escInfo_short _ (by decide) _,
          (by decide : shortEscape 't' = some '\x09')]
        simp only [Option.map_some']
        rw [ih f rest hf2]
      by_cases h5 : c = '\x0a'
      · subst h5
        rw [(by decide : escapeChar '\x0a' = ['\\', 'n']), List.cons_append,
          List.cons_append, List.nil_append, parseStrBody, if_neg (by decide),
          if_pos rfl, escInfo_short _ (by decide) _,
          (by decide : shortEscape 'n' = some '\x0a')]
        simp only [Option.map_some']
        rw [ih f rest hf2]
      by_cases h6 : c = '\x0c'
      · subst h6
        rw [(by decide : escapeChar '\x0c' = ['\\', 'f']), List.cons_append,
          List.cons_append, List.nil_append, parseStrBody, if_neg (by decide),
          if_pos rfl, escInfo_short _ (by decide) _,
          (by decide : shortEscape 'f' = some '\x0c')]
        simp only [Option.map_some']
        rw [ih f rest hf2]
      by_cases h7 : c = '\x0d'
      · subst h7
        rw [(by decide : escapeChar '\x0d' = ['\\', 'r']), List.cons_append,
          List.cons_append, List.nil_append, parseStrBody, if_neg (by decide),
          if_pos rfl, escInfo_short _ (by decide) _,
          (by decide : shortEscape 'r' = some '\x0d')]
        simp only [Option.map_some']
        rw [ih f rest hf2]
      by_cases h8 : 32 ≤ c.toNat ∧ c.toNat ≤ 126
      · rw [escapeChar, if_neg h1, if_neg h2, if_neg h3, if_neg h4, if_neg h5,
          if_neg h6, if_neg h7, if_pos h8, List.singleton_append, parseStrBody,
          if_neg h1, if_neg h2, if_neg (by omega : ¬c.toNat < 32)]
        rw [ih f rest hf2]
      by_cases h9 : c.toNat < 65536
      · have hrange : c.toNat < 55296 ∨ (57344 ≤ c.toNat ∧ c.toNat < 65536) := by
          rcases char_valid_ranges c with hr | hr
          · exact Or.inl hr
          · exact Or.inr (by omega)
        rw [escapeChar, if_neg h1, if_neg h2, if_neg h3, if_neg h4, if_neg h5,
          if_neg h6, if_neg h7, if_neg h8, if_pos h9]
        simp only [List.cons_append]
        rw [parseStrBody, if_neg (by decide), if_pos rfl,
          escInfo_u_bmp c.toNat hrange _, Char.ofNat_toNat]
        simp only []
        rw [ih f rest hf2]
      · have hv : c.toNat < 1114112 := by
          rcases char_valid_ranges c with hr | hr
          · omega
          · omega
        rw [escapeChar, if_neg h1, if_neg h2, if_neg h3, if_neg h4, if_neg h5,
          if_neg h6, if_neg h7, if_neg h8, if_neg h9]
        simp only [List.cons_append, List.append_assoc]
        rw [parseStrBody, if_neg (by decide), if_pos rfl,
          escInfo_u_pair c.toNat (by omega) hv _, Char.ofNat_toNat]
        simp only []
        rw [ih f rest hf2]

theorem escapeChar_length_pos (c : Char) : 0 < (escapeChar c).length := by
  rw [escapeChar]
  split_ifs <;> simp [toHex4]

theorem printStrBody_length (s : List Char) :
    s.length ≤ (printStrBody s).length := by
  induction s with
  | nil => simp [printStrBody]
  | cons c s ih =>
    rw [printStrBody]
    have h := escapeChar_length_pos c
    simp only [List.length_append, List.length_cons]
    omega

theorem parseStr_print (s : List Char) (rest : List Char) :
    parseStr (printStrBody s ++ '"' :: rest) = some (s, rest) := by
  rw [parseStr]
  apply parseStrBody_print
  have h := printStrBody_length s
  simp only [List.length_append, List.length_cons]
  omega

theorem skipWs_notWs {c : Char} (h : isWsChar c = false) (t : List Char) :
    skipWs (c :: t) = c :: t := by
  rw [skipWs, h]
  simp


theorem decDigitChar_ne {d : Nat} (h : d < 10) (c : Char)
    (hc : c.toNat < 48 ∨ 57 < c.toNat) : decDigitChar d ≠ c := by
  intro e
  have h2 := congrArg Char.toNat e
  rw [decDigitChar_toNat h] at h2
  omega

theorem isWsChar_eq_false {c : Char} (h1 : c ≠ ' ') (h2 : c ≠ '\t')
    (h3 : c ≠ '\n') (h4 : c ≠ '\r') : isWsChar c = false := by
  simp [isWsChar, h1, h2, h3, h4]

theorem isWsChar_decDigitChar {d : Nat} (h : d < 10) :
    isWsChar (decDigitChar d) = false :=
  isWsChar_eq_false (decDigitChar_ne h ' ' (by decide))
    (decDigitChar_ne h '\t' (by decide)) (decDigitChar_ne h '\n' (by decide))
    (decDigitChar_ne h '\r' (by decide))

/-- The first character of any printed JSON value: never whitespace and
never one of the closing delimiters, so the scanner's whitespace
skipping and close-bracket tests at element boundaries behave
predictably. -/
theorem printJson_head (j : Json) :
    ∃ c t, printJson j = c :: t ∧ isWsChar c = false ∧ c ≠ ']' ∧
      c ≠ '\x7d' := by
  match j with
  | .null => exact ⟨'n', _, rfl, by decide, by decide, by decide⟩
  | .bool true => exact ⟨'t', _, rfl, by decide, by decide, by decide⟩
  | .bool false => exact ⟨'f', _, rfl, by decide, by decide, by decide⟩
  | .str s => exact ⟨'"', _, rfl, by decide, by decide, by decide⟩
  | .arr xs => exact ⟨'[', _, rfl, by decide, by decide, by decide⟩
  | .obj kvs => exact ⟨'\x7b', _, rfl, by decide, by decide, by decide⟩
  | .num n =>
    rw [printJson, intChars]
    by_cases hn : n < 0
    · rw [if_pos hn]
      exact ⟨'-', _, rfl, by decide, by decide, by decide⟩
    · rw [if_neg hn]
      obtain ⟨d, t, hd, hshape⟩ := natChars_cons n.toNat
      refine ⟨decDigitChar d, t, hshape, isWsChar_decDigitChar hd, ?_, ?_⟩
      · exact decDigitChar_ne hd ']' (by decide)
      · exact decDigitChar_ne hd '\x7d' (by decide)

theorem printElems_cons_head (x : Json) (xs : JArr) :
    ∃ c t, printElems (.cons x xs) = c :: t ∧ isWsChar c = false ∧
      c ≠ ']' := by
  obtain ⟨c, t, hshape, hws, hne, _⟩ := printJson_head x
  match xs with
  | .nil => exact ⟨c, t, by rw [printElems, hshape], hws, hne⟩
  | .cons y tl =>
    exact ⟨c, t ++ (',' :: ' ' :: printElems (.cons y tl)),
      by rw [printElems, hshape]; rfl, hws, hne⟩

theorem printMembers_cons_head (k : List Char) (v : Json) (kvs : JMembers) :
    ∃ t, printMembers (.cons k v kvs) = '"' :: t := by
  match kvs with
  | .nil => exact ⟨_, by rw [printMembers, printStr]; rfl⟩
  | .cons k2 v2 tl => exact ⟨_, by rw [printMembers, printStr]; rfl⟩

theorem JMembers.append_nil : ∀ a : JMembers, a.append .nil = a
  | .nil => rfl
  | .cons k v tl => by rw [JMembers.append, JMembers.append_nil tl]

theorem JMembers.append_assoc :
    ∀ (a b c : JMembers), (a.append b).append c = a.append (b.append c)
  | .nil, b, c => rfl
  | .cons k v tl, b, c => by
    rw [JMembers.append, JMembers.append, JMembers.append,
      JMembers.append_assoc tl b c]

theorem JMembers.hasKey_append :
    ∀ (a b : JMembers) (k : List Char),
      (a.append b).hasKey k = (a.hasKey k || b.hasKey k)
  | .nil, b, k => by rw [JMembers.append, JMembers.hasKey]; simp
  | .cons k2 v tl, b, k => by
    rw [JMembers.append, JMembers.hasKey, JMembers.hasKey,
      JMembers.hasKey_append tl b k, Bool.or_assoc]

theorem JMembers.snoc_eq_append :
    ∀ (a : JMembers) (k : List Char) (v : Json),
      a.snoc k v = a.append (.cons k v .nil)
  | .nil, k, v => rfl
  | .cons k2 w tl, k, v => by
    rw [JMembers.snoc, JMembers.append, JMembers.snoc_eq_append tl k v]

theorem dictAdd_fresh (acc : JMembers) (k : List Char) (v : Json)
    (h : acc.hasKey k = false) :
    dictAdd acc k v = acc.append (.cons k v .nil) := by
  rw [dictAdd, h, if_neg (by simp), JMembers.snoc_eq_append]

theorem dictify'_fresh :
    ∀ (l : JMembers) (acc : JMembers), keysNodupM l = true →
    (∀ k2, l.hasKey k2 = true → acc.hasKey k2 = false) →
    dictify' acc l = acc.append l
  | .nil, acc, hn, hf => by rw [dictify', JMembers.append_nil]
  | .cons k v tl, acc, hn, hf => by
    have hk : acc.hasKey k = false := by
      apply hf
      rw [JMembers.hasKey]
      simp
    rw [dictify', dictAdd_fresh acc k v hk,
      dictify'_fresh tl (acc.append (.cons k v .nil)) ?hn ?hf,
      JMembers.append_assoc, JMembers.append, JMembers.append]
    case hn =>
      rw [keysNodupM, Bool.and_eq_true] at hn
      exact hn.2
    case hf =>
      intro k2 hk2
      rw [JMembers.hasKey_append]
      have h1 : acc.hasKey k2 = false := by
        apply hf
        rw [JMembers.hasKey, hk2]
        simp
      have h2 : (k == k2) = false := by
        rw [keysNodupM, Bool.and_eq_true] at hn
        have h3 := hn.1
        by_contra h4
        have h5 : k = k2 := by
          have := Bool.of_not_eq_false h4
          exact eq_of_beq this
        subst h5
        rw [hk2] at h3
        simp at h3
      rw [h1, JMembers.hasKey, h2, JMembers.hasKey]
      simp

theorem dictify_nodup (kvs : JMembers) (h : keysNodupM kvs = true) :
    dictify kvs = kvs := by
  rw [dictify, dictify'_fresh kvs .nil h (fun k2 _ => rfl)]
  rfl

theorem fsizeJ_pos (j : Json) : 1 ≤ fsizeJ j := by
  cases j <;> simp [fsizeJ]

theorem intChars_length_pos (n : Int) : 0 < (intChars n).length := by
  rw [intChars]
  by_cases hn : n < 0
  · rw [if_pos hn]
    simp
  · rw [if_neg hn]
    obtain ⟨d, t, hd, hshape⟩ := natChars_cons n.toNat
    rw [hshape]
    simp

mutual

theorem fsizeJ_le_printJson_length : ∀ j : Json, fsizeJ j ≤ (printJson j).length
  | .null => by rw [fsizeJ, printJson]; simp [nullChars]
  | .bool true => by rw [fsizeJ, printJson]; simp [trueChars]
  | .bool false => by rw [fsizeJ, printJson]; simp [falseChars]
  | .num n => by
    rw [fsizeJ, printJson]
    have := intChars_length_pos n
    omega
  | .str s => by
    rw [fsizeJ, printJson, printStr]
    simp
  | .arr xs => by
    rw [fsizeJ, printJson]
    have := fsizeA_le_printElems_length xs
    simp only [List.length_cons, List.length_append]
    simp at this ⊢
    omega
  | .obj kvs => by
    rw [fsizeJ, printJson]
    have := fsizeM_le_printMembers_length kvs
    simp only [List.length_cons, List.length_append]
    simp at this ⊢
    omega

theorem fsizeA_le_printElems_length :
    ∀ xs : JArr, fsizeA xs ≤ (printElems xs).length + 1
  | .nil => by rw [fsizeA, printElems]; simp
  | .cons x .nil => by
    rw [fsizeA, fsizeA, printElems]
    have := fsizeJ_le_printJson_length x
    omega
  | .cons x (.cons y tl) => by
    rw [fsizeA, printElems]
    have h1 := fsizeJ_le_printJson_length x
    have h2 := fsizeA_le_printElems_length (.cons y tl)
    simp only [List.length_append, List.length_cons]
    omega

theorem fsizeM_le_printMembers_length :
    ∀ kvs : JMembers, fsizeM kvs ≤ (printMembers kvs).length + 1
  | .nil => by rw [fsizeM, printMembers]; simp
  | .cons k v .nil => by
    rw [fsizeM, fsizeM, printMembers]
    have := fsizeJ_le_printJson_length v
    simp only [List.length_append, List.length_cons]
    omega
  | .cons k v (.cons k2 v2 tl) => by
    rw [fsizeM, printMembers]
    have h1 := fsizeJ_le_printJson_length v
    have h2 := fsizeM_le_printMembers_length (.cons k2 v2 tl)
    simp only [List.length_append, List.length_cons]
    omega

end

theorem numStart_ne {c0 : Char}
    (h : c0 = '-' ∨ ∃ d, d < 10 ∧ c0 = decDigitChar d) (x : Char)
    (hx : x.toNat ≠ 45 ∧ (x.toNat < 48 ∨ 57 < x.toNat)) : c0 ≠ x := by
  intro e
  rcases h with h | ⟨d, hd, h⟩
  · subst h
    have h2 := congrArg Char.toNat e
    have h3 : ('-').toNat = 45 := by decide
    rw [h3] at h2
    omega
  · subst h
    have h2 := congrArg Char.toNat e
    rw [decDigitChar_toNat hd] at h2
    omega

theorem intChars_head (n : Int) :
    ∃ c0 t0, intChars n = c0 :: t0 ∧
      (c0 = '-' ∨ ∃ d, d < 10 ∧ c0 = decDigitChar d) := by
  rw [intChars]
  by_cases hn : n < 0
  · rw [if_pos hn]
    exact ⟨'-', _, rfl, Or.inl rfl⟩
  · rw [if_neg hn]
    obtain ⟨d, t, hd, hsh⟩ := natChars_cons n.toNat
    exact ⟨_, _, hsh, Or.inr ⟨d, hd, rfl⟩⟩

mutual

theorem parseValue_print :
    ∀ (j : Json) (fuel : Nat) (rest : List Char), wfJson j = true →
    fsizeJ j ≤ fuel → numBoundary rest = true →
    parseValue fuel (printJson j ++ rest) = some (j, rest)
  | j, 0, rest, hw, hf, hb => by
    have := fsizeJ_pos j
    omega
  | .null, f + 1, rest, hw, hf, hb => by
    rw [printJson, nullChars]
    simp only [List.cons_append, List.nil_append]
    rw [parseValue, if_neg (by decide), if_neg (by decide), if_neg (by decide),
      if_pos rfl]
    rfl
  | .bool true, f + 1, rest, hw, hf, hb => by
    rw [printJson, trueChars]
    simp only [List.cons_append, List.nil_append]
    rw [parseValue, if_neg (by decide), if_neg (by decide), if_neg (by decide),
      if_neg (by decide), if_pos rfl]
    rfl
  | .bool false, f + 1, rest, hw, hf, hb => by
    rw [printJson, falseChars]
    simp only [List.cons_append, List.nil_append]
    rw [parseValue, if_neg (by decide), if_neg (by decide), if_neg (by decide),
      if_neg (by decide), if_neg (by decide), if_pos rfl]
    rfl
  | .num n, f + 1, rest, hw, hf, hb => by
    rw [printJson]
    obtain ⟨c0, t0, hshape, hnum⟩ := intChars_head n
    rw [hshape]
    simp only [List.cons_append]
    rw [parseValue, if_neg (numStart_ne hnum '"' (by decide)),
      if_neg (numStart_ne hnum '\x7b' (by decide)),
      if_neg (numStart_ne hnum '[' (by decide)),
      if_neg (numStart_ne hnum 'n' (by decide)),
      if_neg (numStart_ne hnum 't' (by decide)),
      if_neg (numStart_ne hnum 'f' (by decide))]
    have h1 := parseNumTok_intChars n rest hb
    rw [hshape] at h1
    simp only [List.cons_append] at h1
    rw [h1]
  | .str s, f + 1, rest, hw, hf, hb => by
    rw [printJson, printStr]
    simp only [List.cons_append, List.append_assoc, List.singleton_append, List.nil_append]
    have h1 := parseStr_print s rest
    rw [parseValue, if_pos rfl, h1]
  | .arr .nil, f + 1, rest, hw, hf, hb => by
    rw [printJson, printElems]
    simp only [List.nil_append, List.cons_append, List.singleton_append]
    rw [parseValue, if_neg (by decide), if_neg (by decide), if_pos rfl,
      skipWs_notWs (by decide)]
    simp
  | .arr (.cons y tl), f + 1, rest, hw, hf, hb => by
    rw [printJson]
    simp only [List.cons_append, List.append_assoc, List.singleton_append, List.nil_append]
    rw [parseValue, if_neg (by decide), if_neg (by decide), if_pos rfl]
    obtain ⟨ch, ct, hE, hEw, hEne⟩ := printElems_cons_head y tl
    have hrec := parseElems_print y tl f rest ?wf1 ?fs1
    rw [hE] at hrec ⊢
    simp only [List.cons_append] at hrec ⊢
    rw [skipWs_notWs hEw]
    simp only []
    rw [if_neg hEne, hrec]
    case wf1 =>
      rw [wfJson] at hw
      exact hw
    case fs1 =>
      rw [fsizeJ] at hf
      omega
  | .obj .nil, f + 1, rest, hw, hf, hb => by
    rw [printJson, printMembers]
    simp only [List.nil_append, List.cons_append, List.singleton_append]
    rw [parseValue, if_neg (by decide), if_pos rfl,
      skipWs_notWs (by decide)]
    simp [dictify, dictify']
  | .obj (.cons k2 v2 tl), f + 1, rest, hw, hf, hb => by
    rw [printJson]
    simp only [List.cons_append, List.append_assoc, List.singleton_append, List.nil_append]
    rw [parseValue, if_neg (by decide), if_pos rfl]
    rw [wfJson, Bool.and_eq_true] at hw
    obtain ⟨mt, hM⟩ := printMembers_cons_head k2 v2 tl
    have hrec := parseMembers_print k2 v2 tl f rest hw.2 ?fs2
    rw [hM] at hrec ⊢
    simp only [List.cons_append] at hrec ⊢
    rw [skipWs_notWs (by decide)]
    simp only []
    rw [if_neg (by decide), hrec]
    simp only []
    rw [dictify_nodup _ hw.1]
    case fs2 =>
      rw [fsizeJ] at hf
      omega

theorem parseElems_print :
    ∀ (x : Json) (xs : JArr) (fuel : Nat) (rest : List Char),
    wfArr (.cons x xs) = true → fsizeA (.cons x xs) ≤ fuel →
    parseElems fuel (printElems (.cons x xs) ++ ']' :: rest) =
      some (.cons x xs, rest)
  | x, xs, 0, rest, hw, hf => by
    rw [fsizeA] at hf
    omega
  | x, .nil, f + 1, rest, hw, hf => by
    rw [printElems, parseElems]
    rw [wfArr, Bool.and_eq_true] at hw
    rw [fsizeA, fsizeA] at hf
    rw [parseValue_print x f (']' :: rest) hw.1 (by omega)
      (by rw [numBoundary]; decide)]
    simp only []
    rw [skipWs_notWs (by decide)]
    simp only []
    rw [if_neg (by decide)]
    simp
  | x, .cons y tl, f + 1, rest, hw, hf => by
    rw [printElems, parseElems]
    simp only [List.cons_append, List.append_assoc]
    rw [wfArr, Bool.and_eq_true] at hw
    rw [fsizeA] at hf
    rw [parseValue_print x f _ hw.1 (by omega) (by rw [numBoundary]; decide)]
    simp only []
    rw [skipWs_notWs (by decide)]
    simp only []
    rw [if_pos trivial, skipWs, if_pos (by decide)]
    obtain ⟨ch, ct, hE, hEw, hEne⟩ := printElems_cons_head y tl
    have hrec := parseElems_print y tl f rest hw.2 (by rw [fsizeA] at hf ⊢; omega)
    rw [hE] at hrec ⊢
    simp only [List.cons_append] at hrec ⊢
    rw [skipWs_notWs hEw, hrec]

theorem parseMembers_print :
    ∀ (k : List Char) (v : Json) (kvs : JMembers) (fuel : Nat)
      (rest : List Char),
    wfMembers (.cons k v kvs) = true → fsizeM (.cons k v kvs) ≤ fuel →
    parseMembers fuel (printMembers (.cons k v kvs) ++ '\x7d' :: rest) =
      some (.cons k v kvs, rest)
  | k, v, kvs, 0, rest, hw, hf => by
    rw [fsizeM] at hf
    omega
  | k, v, .nil, f + 1, rest, hw, hf => by
    rw [printMembers, printStr, parseMembers]
    simp only [List.cons_append, List.append_assoc, List.singleton_append, List.nil_append]
    rw [wfMembers, Bool.and_eq_true] at hw
    rw [fsizeM, fsizeM] at hf
    rw [parseKeyColon, if_pos rfl, parseStr_print]
    simp only []
    rw [expectColon, skipWs_notWs (by decide)]
    simp only []
    rw [if_pos trivial]
    simp only []
    rw [skipWs, if_pos (by decide)]
    obtain ⟨cv, tv, hV, hVw, _, _⟩ := printJson_head v
    have hval := parseValue_print v f ('\x7d' :: rest) hw.1 (by omega)
      (by rw [numBoundary]; decide)
    rw [hV] at hval ⊢
    simp only [List.cons_append] at hval ⊢
    rw [skipWs_notWs hVw, hval]
    simp only []
    rw [skipWs_notWs (by decide)]
    simp only []
    rw [if_neg (by decide)]
    simp
  | k, v, .cons k2 v2 tl, f + 1, rest, hw, hf => by
    rw [printMembers, printStr, parseMembers]
    simp only [List.cons_append, List.append_assoc, List.singleton_append, List.nil_append]
    rw [wfMembers, Bool.and_eq_true] at hw
    rw [fsizeM] at hf
    rw [parseKeyColon, if_pos rfl, parseStr_print]
    simp only []
    rw [expectColon, skipWs_notWs (by decide)]
    simp only []
    rw [if_pos trivial]
    simp only []
    rw [skipWs, if_pos (by decide)]
    obtain ⟨cv, tv, hV, hVw, _, _⟩ := printJson_head v
    have hval := parseValue_print v f
      (',' :: ' ' :: (printMembers (.cons k2 v2 tl) ++ '\x7d' :: rest))
      hw.1 (by omega) (by rw [numBoundary]; decide)
    rw [hV] at hval ⊢
    simp only [List.cons_append] at hval ⊢
    rw [skipWs_notWs hVw, hval]
    simp only []
    rw [skipWs_notWs (by decide)]
    simp only []
    rw [if_pos trivial, skipWs, if_pos (by decide)]
    obtain ⟨mt, hM⟩ := printMembers_cons_head k2 v2 tl
    have hrec := parseMembers_print k2 v2 tl f rest hw.2
      (by rw [fsizeM] at hf ⊢; omega)
    rw [hM] at hrec ⊢
    simp only [List.cons_append] at hrec ⊢
    rw [skipWs_notWs (by decide), hrec]

end

theorem loads_printJson (j : Json) (hw : wfJson j = true) :
    loads (printJson j) = some j := by
  obtain ⟨c, t, hshape, hws, _, _⟩ := printJson_head j
  have hskip : skipWs (printJson j) = printJson j := by
    rw [hshape, skipWs_notWs hws]
  have hval := parseValue_print j ((printJson j).length + 1) [] hw
    (by have := fsizeJ_le_printJson_length j; omega) rfl
  rw [List.append_nil] at hval
  rw [loads]
  simp only [hskip]
  rw [hval]
  rfl

theorem dropWhile_replicate_nul (m : Nat) (l : List Char) :
    (List.replicate m nulChar ++ l).dropWhile (· == nulChar) =
      l.dropWhile (· == nulChar) := by
  induction m with
  | zero => rw [List.replicate_zero, List.nil_append]
  | succ m ih =>
    rw [List.replicate_succ, List.cons_append, List.dropWhile_cons]
    simp only [beq_self_eq_true, if_true]
    exact ih

theorem rstrip0_dumps_pad (d : JMembers) (n : Nat) :
    rstrip0 (dumpsData d ++ List.replicate n nulChar) = dumpsData d := by
  rw [rstrip0, List.reverse_append, List.reverse_replicate,
    dropWhile_replicate_nul]
  have h3 : (dumpsData d).reverse.dropWhile (· == nulChar) =
      (dumpsData d).reverse := by
    rw [dumpsData, printJson, List.reverse_cons, List.reverse_append]
    simp only [List.reverse_cons, List.reverse_nil, List.nil_append,
      List.singleton_append, List.cons_append, List.dropWhile_cons]
    rw [if_neg (by decide)]
  rw [h3, List.reverse_reverse]

theorem JMembers.lookup_snoc_self :
    ∀ (d : JMembers) (k : List Char) (v : Json), d.hasKey k = false →
      (d.snoc k v).lookup k = some v
  | .nil, k, v, h => by rw [JMembers.snoc, JMembers.lookup, if_pos rfl]
  | .cons k2 w tl, k, v, h => by
    simp only [JMembers.hasKey, Bool.or_eq_false_iff] at h
    have h1 : ¬ k2 = k := by
      intro e
      rw [e] at h
      simp at h
    rw [JMembers.snoc, JMembers.lookup, if_neg h1,
      JMembers.lookup_snoc_self tl k v h.2]

theorem JMembers.lookup_none :
    ∀ (d : JMembers) (k : List Char), d.hasKey k = false → d.lookup k = none
  | .nil, _, _ => rfl
  | .cons k2 v tl, k, h => by
    simp only [JMembers.hasKey, Bool.or_eq_false_iff] at h
    have h1 : ¬ k2 = k := by
      intro e
      rw [e] at h
      simp at h
    rw [JMembers.lookup, if_neg h1, JMembers.lookup_none tl k h.2]

theorem JMembers.hasKey_erase_self :
    ∀ (d : JMembers) (k : List Char), keysNodupM d = true →
      (d.erase k).hasKey k = false
  | .nil, k, h => rfl
  | .cons k2 v tl, k, h => by
    rw [keysNodupM, Bool.and_eq_true] at h
    rw [JMembers.erase]
    by_cases he : k2 = k
    · rw [if_pos he]
      subst he
      simpa using h.1
    · rw [if_neg he, JMembers.hasKey, JMembers.hasKey_erase_self tl k h.2]
      simp [he]

theorem JMembers.hasKey_erase_other :
    ∀ (d : JMembers) (k k2 : List Char), k2 ≠ k →
      (d.erase k2).hasKey k = d.hasKey k
  | .nil, _, _, _ => rfl
  | .cons k3 v tl, k, k2, h => by
    rw [JMembers.erase]
    by_cases he : k3 = k2
    · rw [if_pos he, JMembers.hasKey]
      subst he
      have h1 : (k3 == k) = false := by
        simp
        intro e
        exact absurd e h
      rw [h1]
      simp
    · rw [if_neg he, JMembers.hasKey, JMembers.hasKey,
        JMembers.hasKey_erase_other tl k k2 h]

theorem JMembers.hasKey_snoc :
    ∀ (d : JMembers) (k2 k : List Char) (v : Json),
      (d.snoc k2 v).hasKey k = (d.hasKey k || k2 == k)
  | .nil, k2, k, v => by
    rw [JMembers.snoc, JMembers.hasKey, JMembers.hasKey, JMembers.hasKey]
    simp
  | .cons k3 w tl, k2, k, v => by
    rw [JMembers.snoc, JMembers.hasKey, JMembers.hasKey_snoc tl k2 k v,
      JMembers.hasKey, Bool.or_assoc]

/-- C3: for every store state in which a key is already present,
`create` with that key fails with the duplicate-key error and returns
the entire store state (in-memory map and mapped region) unchanged,
whatever value and ttl were passed; in particular after a successful
`create` a second `create` of the same key fails and `get` still
returns the first value. -/
theorem claim_duplicate_create_rejected (cfg : Config) (now : Int)
    (st : StoreState) (key : List Char) (value : Json) (ttl : Option Int)
    (hPresent : st.data.hasKey key = true) :
    DataStore.create cfg now st key value ttl = (.error .duplicateKey, st) := by
  rw [DataStore.create, if_pos hPresent]

/-- C3 witness: the spec's scenario.  `create("a", {"x": 1})` then
`create("a", {"x": 2})` fails with `DuplicateKey` leaving the state of
the first create intact, and `get("a")` still returns `{"x": 1}`. -/
theorem claim_duplicate_create_rejected_witness :
    (DataStore.create (Config.mk 10 100 100 (fun _ => 0)) 0
        (DataStore.create (Config.mk 10 100 100 (fun _ => 0)) 0
          ⟨.nil, []⟩ ['a'] (Json.obj (.cons ['x'] (.num 1) .nil)) none).2
        ['a'] (Json.obj (.cons ['x'] (.num 2) .nil)) none =
      (.error .duplicateKey,
        (DataStore.create (Config.mk 10 100 100 (fun _ => 0)) 0
          ⟨.nil, []⟩ ['a'] (Json.obj (.cons ['x'] (.num 1) .nil)) none).2)) ∧
    (DataStore.get (Config.mk 10 100 100 (fun _ => 0)) 0
        (DataStore.create (Config.mk 10 100 100 (fun _ => 0)) 0
          ⟨.nil, []⟩ ['a'] (Json.obj (.cons ['x'] (.num 1) .nil)) none).2
        ['a']).1 = .ok (Json.obj (.cons ['x'] (.num 1) .nil)) :=
  ⟨claim_duplicate_create_rejected _ _ _ _ _ _ (by decide), by decide⟩

/-- C6: `is_expired` is false exactly when no ttl is stored or the
strict bound is not exceeded: it returns true if and only if the ttl is
present and `now_ms - created_at_ms > ttl_seconds * 1000` (strict
inequality).  It is a pure function of the envelope's stored fields and
the given current time. -/
theorem claim_is_expired_formula (vo : DataStoreVO) (now : Int) :
    vo.is_expired now = true ↔
      ∃ t, vo.ttl = some t ∧ now - vo.created_at > t * 1000 := by
  obtain ⟨v, c, ttl⟩ := vo
  cases ttl with
  | none => simp [DataStoreVO.is_expired]
  | some t => simp [DataStoreVO.is_expired]

/-- C7: `delete` of a key that is not in the map raises no error and
returns the store state (map and region) entirely unchanged. -/
theorem claim_delete_missing_noop (cfg : Config) (st : StoreState)
    (key : List Char) (hAbsent : st.data.hasKey key = false) :
    DataStore.delete cfg st key = (.ok (), st) := by
  rw [DataStore.delete, if_neg (by simp [hAbsent])]

/-- C7 witness: deleting a missing key from a one-entry store is a
no-op. -/
theorem claim_delete_missing_noop_witness :
    DataStore.delete (Config.mk 10 100 100 (fun _ => 0))
      ⟨.cons ['a'] (Json.num 1) .nil, ['x']⟩ ['b'] =
      (.ok (), ⟨.cons ['a'] (Json.num 1) .nil, ['x']⟩) :=
  claim_delete_missing_noop _ _ _ (by decide)

/-- C8: two consecutive `flush` calls with no intervening mutation of
the map write byte-identical content into the mapped region: the state
after the second flush is exactly the state after the first. -/
theorem claim_flush_idempotent (cfg : Config) (st : StoreState) :
    DataStore.flush cfg (DataStore.flush cfg st).2 =
      ((DataStore.flush cfg st).1, (DataStore.flush cfg st).2) := by
  have hdata : (DataStore.flush cfg st).2.data = st.data := by
    rw [DataStore.flush]
    cases flushData cfg st.data with
    | ok r => rfl
    | error e => rfl
  conv_lhs => rw [DataStore.flush]
  rw [hdata]
  cases hfd : flushData cfg st.data with
  | ok r =>
    rw [DataStore.flush]
    simp only [hfd]
  | error e =>
    rw [DataStore.flush]
    simp only [hfd]

/-- C10: the duplicate-key check in `create` comes before key and value
validation: a present key always yields the duplicate-key error no
matter how invalid the key or value would be, while with an absent key
the validation is consulted and an oversized key yields the
size-constraint error. -/
theorem claim_duplicate_check_first (cfg : Config) (now : Int)
    (st : StoreState) :
    (∀ key value ttl, st.data.hasKey key = true →
      DataStore.create cfg now st key value ttl =
        (.error .duplicateKey, st)) ∧
    (∀ key value ttl, st.data.hasKey key = false →
      is_valid_key cfg key = false →
      DataStore.create cfg now st key value ttl =
        (.error .constraintViolation, st)) := by
  constructor
  · intro key value ttl hPresent
    rw [DataStore.create, if_pos hPresent]
  · intro key value ttl hAbsent hInvalid
    rw [DataStore.create, if_neg (by simp [hAbsent]),
      if_neg (by simp [hInvalid])]

/-- C10 witness: with the key `"a"` present, `create` refuses with
`DuplicateKey` even for a value that is not a dict (which validation
would reject with a different error); with an absent over-long key it
instead reports the size constraint. -/
theorem claim_duplicate_check_first_witness :
    (DataStore.create (Config.mk 1 100 100 (fun _ => 0)) 0
        ⟨.cons ['a'] (Json.num 1) .nil, []⟩ ['a'] (Json.num 7) none =
      (.error .duplicateKey, ⟨.cons ['a'] (Json.num 1) .nil, []⟩)) ∧
    (DataStore.create (Config.mk 1 100 100 (fun _ => 0)) 0
        ⟨.cons ['a'] (Json.num 1) .nil, []⟩ ['b', 'c'] (Json.num 7) none =
      (.error .constraintViolation, ⟨.cons ['a'] (Json.num 1) .nil, []⟩)) :=
  ⟨(claim_duplicate_check_first _ 0 _).1 ['a'] (Json.num 7) none (by decide),
    (claim_duplicate_check_first _ 0 _).2 ['b', 'c'] (Json.num 7) none
      (by decide) (by decide)⟩

/-- C1: for a valid key (length within `MAX_KEY_LEN`), a dict value
within `MAX_VALUE_SIZE` (as measured by the size heuristic), and an
absent or integer ttl, `create(key, value, ttl)` on a store not
containing `key` followed by `get(key)` before the ttl has elapsed
returns exactly the value passed to `create`.  This holds even if the
flush write overflows the region: the in-memory insertion precedes the
flush, and `get` reads the in-memory map. -/
theorem claim_create_then_get_returns_value (cfg : Config)
    (now now2 : Int) (st : StoreState) (key : List Char) (kvs : JMembers)
    (ttl : Option Int)
    (hAbsent : st.data.hasKey key = false)
    (hKey : key.length ≤ cfg.MAX_KEY_LEN)
    (hSize : cfg.getsizeof (Json.obj kvs) ≤ cfg.MAX_VALUE_SIZE)
    (hLive : ∀ t, ttl = some t → now2 - now ≤ t * 1000) :
    (DataStore.get cfg now2
        (DataStore.create cfg now st key (Json.obj kvs) ttl).2 key).1 =
      .ok (Json.obj kvs) := by
  rw [DataStore.create, if_neg (by simp [hAbsent]),
    if_pos (by rw [is_valid_key]; simp [hKey])]
  rw [is_valid_value]
  simp only [decide_eq_true hSize]
  have hlook := JMembers.lookup_snoc_self st.data key
    (value_arr (Json.obj kvs) now ttl) hAbsent
  cases hfd : flushData cfg (st.data.snoc key (value_arr (Json.obj kvs) now ttl)) with
  | ok r =>
    simp only []
    rw [DataStore.get]
    simp only [hlook]
    cases ttl with
    | none => rfl
    | some t =>
      rw [value_arr]
      simp only [DataStoreVO.is_expired]
      rw [if_neg (by simp; have := hLive t rfl; omega)]
  | error e =>
    simp only []
    rw [DataStore.get]
    simp only [hlook]
    cases ttl with
    | none => rfl
    | some t =>
      rw [value_arr]
      simp only [DataStoreVO.is_expired]
      rw [if_neg (by simp; have := hLive t rfl; omega)]

/-- C1 witness: create `"a" -> {"x": 1}` with a 5-second ttl at time 0
and read it back at time 1000 ms. -/
theorem claim_create_then_get_returns_value_witness :
    (DataStore.get (Config.mk 10 100 100 (fun _ => 0)) 1000
        (DataStore.create (Config.mk 10 100 100 (fun _ => 0)) 0
          ⟨.nil, []⟩ ['a'] (Json.obj (.cons ['x'] (.num 1) .nil))
          (some 5)).2 ['a']).1 =
      .ok (Json.obj (.cons ['x'] (.num 1) .nil)) :=
  claim_create_then_get_returns_value _ 0 1000 _ ['a'] _ (some 5)
    (by decide) (by decide) (by decide)
    (by intro t ht; injection ht with h2; omega)

/-- C4: `get` on a key stored with a ttl such that
`now - created_at > ttl * 1000` removes the key from the map, flushes
the region, and fails with the `Expired` error; any later `get` of the
same key fails with `NotFound`.  Expiry is evaluated only on access:
a `delete` of a different key leaves the expired entry in place. -/
theorem claim_get_expired_evicts (cfg : Config) (now : Int)
    (st : StoreState) (key : List Char) (v : Json) (c t : Int) (extra : JArr)
    (hNodup : keysNodupM st.data = true)
    (hLookup : st.data.lookup key =
      some (Json.arr (.cons v (.cons (.num c) (.cons (.num t) extra)))))
    (hExp : now - c > t * 1000)
    (hFit : (dumpsData (st.data.erase key)).length ≤
      cfg.MAX_LOCAL_STORAGE_SIZE) :
    (DataStore.get cfg now st key).1 = .error .expired ∧
    (DataStore.get cfg now st key).2.data = st.data.erase key ∧
    inSync cfg (DataStore.get cfg now st key).2 ∧
    (∀ now2, (DataStore.get cfg now2 (DataStore.get cfg now st key).2 key).1 =
      .error .notFound) ∧
    (∀ key2, key2 ≠ key →
      (DataStore.delete cfg st key2).2.data.hasKey key = st.data.hasKey key) := by
  have hget : DataStore.get cfg now st key =
      (.error .expired, ⟨st.data.erase key,
        dumpsData (st.data.erase key) ++
          List.replicate (cfg.MAX_LOCAL_STORAGE_SIZE -
            (dumpsData (st.data.erase key)).length) nulChar⟩) := by
    rw [DataStore.get]
    simp only [hLookup]
    simp only [DataStoreVO.is_expired]
    rw [if_pos (by simp; omega)]
    rw [flushData, if_pos hFit]
  refine ⟨by rw [hget], by rw [hget], ?_, ?_, ?_⟩
  · rw [hget, inSync]
    simp only []
    rw [flushData, if_pos hFit]
  · intro now2
    rw [hget]
    simp only []
    rw [DataStore.get, JMembers.lookup_none _ _
      (JMembers.hasKey_erase_self st.data key hNodup)]
  · intro key2 hne
    rw [DataStore.delete]
    by_cases hk2 : st.data.hasKey key2
    · rw [if_pos hk2]
      cases hfd : flushData cfg (st.data.erase key2) with
      | ok r =>
        simp only [hfd]
        exact JMembers.hasKey_erase_other st.data key key2 hne
      | error e =>
        simp only [hfd]
        exact JMembers.hasKey_erase_other st.data key key2 hne
    · rw [if_neg hk2]

/-- C5: serialize-then-deserialize round-trip.  Flushing the in-memory
map into the region and then reading the region back the way
construction does (strip trailing zero bytes, parse as JSON) yields a
map identical to the one flushed.  Nothing expires in between: neither
`flush` nor the initial read evaluates ttls. -/
theorem claim_serialize_roundtrip (cfg : Config) (st : StoreState)
    (hw : wfJson (Json.obj st.data) = true)
    (hFit : (dumpsData st.data).length ≤ cfg.MAX_LOCAL_STORAGE_SIZE) :
    DataStore.read_data ((DataStore.flush cfg st).2.region) = .ok st.data := by
  rw [DataStore.flush, flushData, if_pos hFit]
  simp only []
  rw [DataStore.read_data, rstrip0_dumps_pad, dumpsData, loads_printJson _ hw]

/-- C9: the key-length boundary.  With a valid dict value and room in
the region, `create` with a key of exactly `MAX_KEY_LEN` characters
succeeds, while a key of `MAX_KEY_LEN + 1` characters fails with the
size-constraint error, leaving the state unchanged. -/
theorem claim_key_length_boundary (cfg : Config) (now : Int)
    (st : StoreState) (kvs : JMembers) (ttl : Option Int)
    (hSize : cfg.getsizeof (Json.obj kvs) ≤ cfg.MAX_VALUE_SIZE) :
    (∀ key, key.length = cfg.MAX_KEY_LEN → st.data.hasKey key = false →
      (dumpsData (st.data.snoc key (value_arr (Json.obj kvs) now ttl))).length ≤
        cfg.MAX_LOCAL_STORAGE_SIZE →
      (DataStore.create cfg now st key (Json.obj kvs) ttl).1 = .ok ()) ∧
    (∀ key, key.length = cfg.MAX_KEY_LEN + 1 → st.data.hasKey key = false →
      DataStore.create cfg now st key (Json.obj kvs) ttl =
        (.error .constraintViolation, st)) := by
  constructor
  · intro key hlen habs hfit
    rw [DataStore.create, if_neg (by simp [habs]),
      if_pos (by rw [is_valid_key]; simp [hlen])]
    rw [is_valid_value]
    simp only [decide_eq_true hSize]
    rw [flushData, if_pos hfit]
  · intro key hlen habs
    rw [DataStore.create, if_neg (by simp [habs]),
      if_neg (by rw [is_valid_key]; simp [hlen])]

/-- C2 (amended): starting from a state whose region holds exactly the
zero-padded serialization of the map, every operation whose
(post-mutation) serialized map fits within the configured capacity
leaves the region again equal to the zero-padded serialization of the
(possibly updated) map -- whether the operation succeeds or fails.  The
amendment restricts the claim to mutations whose flush write fits: a
flush write that exceeds the capacity raises after the map was already
mutated and leaves the region stale (see the counterexample). -/
theorem claim_sync_invariant_amended (cfg : Config) (st : StoreState)
    (hSync : inSync cfg st) :
    (∀ now key value ttl,
      (dumpsData (st.data.snoc key (value_arr value now ttl))).length ≤
        cfg.MAX_LOCAL_STORAGE_SIZE →
      inSync cfg (DataStore.create cfg now st key value ttl).2) ∧
    (∀ now key,
      (dumpsData (st.data.erase key)).length ≤ cfg.MAX_LOCAL_STORAGE_SIZE →
      inSync cfg (DataStore.get cfg now st key).2) ∧
    (∀ key,
      (dumpsData (st.data.erase key)).length ≤ cfg.MAX_LOCAL_STORAGE_SIZE →
      inSync cfg (DataStore.delete cfg st key).2) ∧
    ((dumpsData JMembers.nil).length ≤ cfg.MAX_LOCAL_STORAGE_SIZE →
      inSync cfg (DataStore.delete_all cfg st).2) ∧
    inSync cfg (DataStore.flush cfg st).2 := by
  refine ⟨?_, ?_, ?_, ?_, ?_⟩
  · intro now key value ttl hfit
    rw [DataStore.create]
    by_cases hk : st.data.hasKey key
    · rw [if_pos hk]
      exact hSync
    · rw [if_neg hk]
      by_cases hv : is_valid_key cfg key = true
      · rw [if_pos hv]
        cases hval : is_valid_value cfg value with
        | error e =>
          simp only [hval]
          exact hSync
        | ok b =>
          cases b with
          | false =>
            simp only [hval]
            exact hSync
          | true =>
            simp only [hval]
            rw [flushData, if_pos hfit, inSync]
            simp only []
            rw [flushData, if_pos hfit]
      · rw [if_neg hv]
        exact hSync
  · intro now key hfit
    rw [DataStore.get]
    cases hl : st.data.lookup key with
    | none => exact hSync
    | some entry =>
      simp only [hl]
      match entry with
      | .null => exact hSync
      | .bool b => exact hSync
      | .num n => exact hSync
      | .str s => exact hSync
      | .obj kvs => exact hSync
      | .arr .nil => exact hSync
      | .arr (.cons v .nil) => exact hSync
      | .arr (.cons v (.cons created .nil)) => exact hSync
      | .arr (.cons v (.cons created (.cons tj extra))) =>
        match tj, created with
        | .null, _ => exact hSync
        | .num t, .null => exact hSync
        | .num t, .bool b2 => exact hSync
        | .num t, .num c =>
          simp only []
          by_cases he : (DataStoreVO.mk v c (some t)).is_expired now = true
          · rw [if_pos he, flushData, if_pos hfit, inSync]
            simp only []
            rw [flushData, if_pos hfit]
          · rw [if_neg he]
            exact hSync
        | .num t, .str s2 => exact hSync
        | .num t, .arr a2 => exact hSync
        | .num t, .obj o2 => exact hSync
        | .bool b2, _ => exact hSync
        | .str s2, _ => exact hSync
        | .arr a2, _ => exact hSync
        | .obj o2, _ => exact hSync
  · intro key hfit
    rw [DataStore.delete]
    by_cases hk : st.data.hasKey key
    · rw [if_pos hk]
      simp only []
      rw [flushData, if_pos hfit, inSync]
      simp only []
      rw [flushData, if_pos hfit]
    · rw [if_neg hk]
      exact hSync
  · intro hfit
    rw [DataStore.delete_all, flushData, if_pos hfit, inSync]
    simp only []
    rw [flushData, if_pos hfit]
  · have h2 : flushData cfg st.data = .ok st.region := hSync
    rw [DataStore.flush, h2]
    exact hSync

/-- C2 counterexample: with capacity 2 the region `"{}"` is exactly the
flushed empty map, yet `create` of the first key raises the
out-of-range error from the flush write after inserting into the map:
the call mutates the in-memory map, does not flush, and leaves map and
region out of sync -- contradicting "every mutating path either fully
applies-and-flushes or fails before mutating". -/
theorem claim_sync_invariant_counterexample :
    inSync (Config.mk 10 10 2 (fun _ => 0)) ⟨.nil, ['\x7b', '\x7d']⟩ ∧
    (DataStore.create (Config.mk 10 10 2 (fun _ => 0)) 0
        ⟨.nil, ['\x7b', '\x7d']⟩ ['a'] (Json.obj .nil) none).1 =
      .error .dataOutOfRange ∧
    (DataStore.create (Config.mk 10 10 2 (fun _ => 0)) 0
        ⟨.nil, ['\x7b', '\x7d']⟩ ['a'] (Json.obj .nil) none).2.data ≠
      JMembers.nil ∧
    ¬ inSync (Config.mk 10 10 2 (fun _ => 0))
      (DataStore.create (Config.mk 10 10 2 (fun _ => 0)) 0
        ⟨.nil, ['\x7b', '\x7d']⟩ ['a'] (Json.obj .nil) none).2 :=
  ⟨by decide, by decide, by decide, by decide⟩

/-- C2 witness: from an in-sync empty store with capacity 100, a
`create` whose snapshot fits leaves the store in sync. -/
theorem claim_sync_invariant_amended_witness :
    inSync (Config.mk 10 100 100 (fun _ => 0))
      (DataStore.create (Config.mk 10 100 100 (fun _ => 0)) 0
        ⟨.nil, '\x7b' :: '\x7d' :: List.replicate 98 nulChar⟩
        ['a'] (Json.obj .nil) none).2 :=
  (claim_sync_invariant_amended (Config.mk 10 100 100 (fun _ => 0))
    ⟨.nil, '\x7b' :: '\x7d' :: List.replicate 98 nulChar⟩ (by decide)).1
    0 ['a'] (Json.obj .nil) none (by decide)

/-- C4 witness: the spec's scenario with `create("b", {"y": 1}, ttl=1)`
stamped at 0 ms and read at 1101 ms: `get` expires and evicts the key,
the store stays in sync, a later `get` reports `NotFound`, and a
`delete` of a different key would have left the expired entry alone. -/
theorem claim_get_expired_evicts_witness :
    (DataStore.get (Config.mk 10 100 100 (fun _ => 0)) 1101
        ⟨.cons ['b'] (Json.arr (.cons (Json.obj (.cons ['y'] (Json.num 1) .nil))
          (.cons (.num 0) (.cons (.num 1) .nil)))) .nil, []⟩ ['b']).1 =
      .error .expired ∧
    (DataStore.get (Config.mk 10 100 100 (fun _ => 0)) 1101
        ⟨.cons ['b'] (Json.arr (.cons (Json.obj (.cons ['y'] (Json.num 1) .nil))
          (.cons (.num 0) (.cons (.num 1) .nil)))) .nil, []⟩ ['b']).2.data =
      (JMembers.cons ['b'] (Json.arr (.cons (Json.obj (.cons ['y'] (Json.num 1) .nil))
        (.cons (.num 0) (.cons (.num 1) .nil)))) .nil).erase ['b'] ∧
    inSync (Config.mk 10 100 100 (fun _ => 0))
      (DataStore.get (Config.mk 10 100 100 (fun _ => 0)) 1101
        ⟨.cons ['b'] (Json.arr (.cons (Json.obj (.cons ['y'] (Json.num 1) .nil))
          (.cons (.num 0) (.cons (.num 1) .nil)))) .nil, []⟩ ['b']).2 ∧
    (DataStore.get (Config.mk 10 100 100 (fun _ => 0)) 2000
        (DataStore.get (Config.mk 10 100 100 (fun _ => 0)) 1101
          ⟨.cons ['b'] (Json.arr (.cons (Json.obj (.cons ['y'] (Json.num 1) .nil))
            (.cons (.num 0) (.cons (.num 1) .nil)))) .nil, []⟩ ['b']).2
        ['b']).1 = .error .notFound ∧
    (DataStore.delete (Config.mk 10 100 100 (fun _ => 0))
        ⟨.cons ['b'] (Json.arr (.cons (Json.obj (.cons ['y'] (Json.num 1) .nil))
          (.cons (.num 0) (.cons (.num 1) .nil)))) .nil, []⟩
        ['z']).2.data.hasKey ['b'] =
      (JMembers.cons ['b'] (Json.arr (.cons (Json.obj (.cons ['y'] (Json.num 1) .nil))
        (.cons (.num 0) (.cons (.num 1) .nil)))) .nil).hasKey ['b'] := by
  have h := claim_get_expired_evicts (Config.mk 10 100 100 (fun _ => 0)) 1101
    ⟨.cons ['b'] (Json.arr (.cons (Json.obj (.cons ['y'] (Json.num 1) .nil))
      (.cons (.num 0) (.cons (.num 1) .nil)))) .nil, []⟩ ['b']
    (Json.obj (.cons ['y'] (Json.num 1) .nil)) 0 1 .nil
    (by decide) (by decide) (by decide) (by decide)
  exact ⟨h.1, h.2.1, h.2.2.1, h.2.2.2.1 2000, h.2.2.2.2 ['z'] (by decide)⟩

/-- C5 witness: a one-entry map flushed into a 100-byte region reads
back identically. -/
theorem claim_serialize_roundtrip_witness :
    DataStore.read_data
      ((DataStore.flush (Config.mk 10 100 100 (fun _ => 0))
        ⟨.cons ['a'] (Json.arr (.cons (Json.obj .nil)
          (.cons (.num 5) (.cons .null .nil)))) .nil, []⟩).2.region) =
      .ok (.cons ['a'] (Json.arr (.cons (Json.obj .nil)
        (.cons (.num 5) (.cons .null .nil)))) .nil) :=
  claim_serialize_roundtrip (Config.mk 10 100 100 (fun _ => 0))
    ⟨.cons ['a'] (Json.arr (.cons (Json.obj .nil)
      (.cons (.num 5) (.cons .null .nil)))) .nil, []⟩
    (by decide) (by decide)

/-- C9 witness: with `MAX_KEY_LEN = 2`, the two-character key is
created successfully while the three-character key is rejected with
the size-constraint error. -/
theorem claim_key_length_boundary_witness :
    (DataStore.create (Config.mk 2 100 100 (fun _ => 0)) 0 ⟨.nil, []⟩
        ['a', 'b'] (Json.obj .nil) none).1 = .ok () ∧
    DataStore.create (Config.mk 2 100 100 (fun _ => 0)) 0 ⟨.nil, []⟩
        ['a', 'b', 'c'] (Json.obj .nil) none =
      (.error .constraintViolation, ⟨.nil, []⟩) :=
  ⟨(claim_key_length_boundary (Config.mk 2 100 100 (fun _ => 0)) 0 ⟨.nil, []⟩
      .nil none (by decide)).1 ['a', 'b'] (by decide) (by decide) (by decide),
    (claim_key_length_boundary (Config.mk 2 100 100 (fun _ => 0)) 0 ⟨.nil, []⟩
      .nil none (by decide)).2 ['a', 'b', 'c'] (by decide) (by decide)⟩
